import Mathlib

/-!
Verification of the natural-language intent resolver of the Clear task
assistant (`assistant.py`).  The Python functions `parse_date_from_text`,
`extract_task_content` and `process_natural_language` are shallowly embedded
below; the SQLite task table is a list of task records threaded through the
resolver, `datetime.now()` is an explicit `today` parameter, and the external
`dateparser` library is an explicit function parameter `dp`.
-/

namespace Clear

/-! ### Calendar model

Proleptic Gregorian calendar, mirroring Python `datetime.date`.
`daysSinceEpoch ⟨1,1,1⟩ = 0`, and 0001-01-01 is a Monday, so
`pyWeekday` agrees with Python's `date.weekday()` (Monday = 0, Sunday = 6). -/

structure PyDate where
  year : Nat
  month : Nat
  day : Nat
deriving DecidableEq, Repr

def isLeap (y : Nat) : Bool :=
  (y % 4 == 0 && y % 100 != 0) || y % 400 == 0

def daysInMonth (y m : Nat) : Nat :=
  if m = 2 then (if isLeap y then 29 else 28)
  else if m = 4 ∨ m = 6 ∨ m = 9 ∨ m = 11 then 30
  else 31

/-- The day after `d` (what Python's `d + timedelta(days=1)` yields). -/
def nextDay (d : PyDate) : PyDate :=
  if d.day < daysInMonth d.year d.month then ⟨d.year, d.month, d.day + 1⟩
  else if d.month < 12 then ⟨d.year, d.month + 1, 1⟩
  else ⟨d.year + 1, 1, 1⟩

/-- The day before `d` (what Python's `d - timedelta(days=1)` yields). -/
def prevDay (d : PyDate) : PyDate :=
  if 1 < d.day then ⟨d.year, d.month, d.day - 1⟩
  else if 1 < d.month then ⟨d.year, d.month - 1, daysInMonth d.year (d.month - 1)⟩
  else ⟨d.year - 1, 12, 31⟩

/-- `d + timedelta(days=k)`. -/
def pyAddDays (d : PyDate) : Nat → PyDate
  | 0 => d
  | k + 1 => nextDay (pyAddDays d k)

/-- Number of leap years in `[1, y-1]`. -/
def leapsBefore (y : Nat) : Nat :=
  (y - 1) / 4 - (y - 1) / 100 + (y - 1) / 400

def daysBeforeYear (y : Nat) : Nat := 365 * (y - 1) + leapsBefore y

def monthDaysBefore (y m : Nat) : Nat :=
  ((List.range (m - 1)).map (fun i => daysInMonth y (i + 1))).sum

def daysSinceEpoch (d : PyDate) : Nat :=
  daysBeforeYear d.year + monthDaysBefore d.year d.month + (d.day - 1)

/-- Python's `date.weekday()`: Monday = 0, …, Sunday = 6. -/
def pyWeekday (d : PyDate) : Nat := daysSinceEpoch d % 7

def ValidDate (d : PyDate) : Prop :=
  1 ≤ d.year ∧ 1 ≤ d.month ∧ d.month ≤ 12 ∧ 1 ≤ d.day ∧
    d.day ≤ daysInMonth d.year d.month

instance (d : PyDate) : Decidable (ValidDate d) := by
  unfold ValidDate; infer_instance

/-! ### Python string primitives

All operations work on `List Char`; inputs in this application are ASCII. -/

/-- Python regex `\w` (ASCII): letters, digits, underscore. -/
def isWordChar (c : Char) : Bool := c.isAlphanum || c = '_'

def lowerL (cs : List Char) : List Char := cs.map Char.toLower

/-- Python `str.strip()`. -/
def trimL (cs : List Char) : List Char :=
  ((cs.dropWhile Char.isWhitespace).reverse.dropWhile Char.isWhitespace).reverse

/-- Python `str.capitalize()`: first character uppercased, the rest lowercased. -/
def capitalizeL : List Char → List Char
  | [] => []
  | c :: cs => Char.toUpper c :: cs.map Char.toLower

def pyLower (s : String) : String := (lowerL s.data).asString

def pyStrip (s : String) : String := (trimL s.data).asString

/-- Contiguous-sublist test: Python's `pat in s` on strings. -/
def occursIn (pat : List Char) : List Char → Bool
  | [] => pat.isEmpty
  | c :: cs => pat.isPrefixOf (c :: cs) || occursIn pat cs

def pyIn (pat s : String) : Bool := occursIn pat.data s.data

/-- Python `str.split()` with no argument: split on whitespace runs, no empties. -/
def splitWsGo : List Char → List Char → List String
  | acc, [] => if acc = [] then [] else [acc.reverse.asString]
  | acc, c :: cs =>
    if c.isWhitespace then
      if acc = [] then splitWsGo [] cs else acc.reverse.asString :: splitWsGo [] cs
    else splitWsGo (c :: acc) cs

def pySplitWords (s : String) : List String := splitWsGo [] s.data

/-! ### The regular expressions of `extract_task_content`

Each `re.sub(pattern, '', ...)` call is embedded as a matcher
`List Char → Option Nat` returning the length of the match starting at the head
(every pattern starts with `\s+`, so a successful match consumes at least one
character), plus `subAll`, which deletes every leftmost non-overlapping match,
exactly as `re.sub` with an empty replacement does. -/

/-- Regex piece `\s+` followed by `k`.  Every continuation used below starts
with a non-whitespace character, so maximal munch on the `\s+` is exact. -/
def wsThen (k : List Char → Option Nat) (cs : List Char) : Option Nat :=
  let n := (cs.takeWhile Char.isWhitespace).length
  if n = 0 then none
  else
    match k (cs.drop n) with
    | some m => some (n + m)
    | none => none

/-- Word boundary `\b` placed after a word character. -/
def boundaryAfter : List Char → Bool
  | [] => true
  | c :: _ => !isWordChar c

/-- `\s+LIT\b` for a literal LIT ending in a word character. -/
def patLitB (lit : List Char) : List Char → Option Nat :=
  wsThen fun cs =>
    if lit.isPrefixOf cs && boundaryAfter (cs.drop lit.length) then some lit.length
    else none

/-- `\s+on \w+day\b`: after "on ", the maximal word-character run must have
length at least 4 and end in "day" (the trailing `\b` forces the whole run). -/
def patOnWeekday : List Char → Option Nat :=
  wsThen fun cs =>
    if ("on ".data).isPrefixOf cs then
      let run := (cs.drop 3).takeWhile isWordChar
      if 4 ≤ run.length ∧ ("yad".data).isPrefixOf run.reverse then some (3 + run.length)
      else none
    else none

/-- `\s+LIT\w+\b` for LIT in {"next ", "this "}: a literal then a nonempty
word-character run (the `\b` forces the maximal run). -/
def patLitWord (lit : List Char) : List Char → Option Nat :=
  wsThen fun cs =>
    if lit.isPrefixOf cs then
      let run := (cs.drop lit.length).takeWhile isWordChar
      if 1 ≤ run.length then some (lit.length + run.length) else none
    else none

/-- `\s+in \d+ days?\b`.  If the optional "s" is present but followed by a word
character, the no-"s" alternative also fails (that "s" is a word character), so
returning `none` there is exact. -/
def patInDays : List Char → Option Nat :=
  wsThen fun cs =>
    if ("in ".data).isPrefixOf cs then
      let digits := (cs.drop 3).takeWhile Char.isDigit
      if 1 ≤ digits.length then
        let rest := cs.drop (3 + digits.length)
        if (" day".data).isPrefixOf rest then
          match rest.drop 4 with
          | 's' :: rest2 =>
            if boundaryAfter rest2 then some (3 + digits.length + 5) else none
          | rest2 => if boundaryAfter rest2 then some (3 + digits.length + 4) else none
        else none
      else none
    else none

/-- `\s+on \d{1,2}/\d{1,2}\b`: with greedy `\d{1,2}` and backtracking, a match
requires the maximal digit runs on both sides of "/" to have length 1 or 2. -/
def patOnSlashDate : List Char → Option Nat :=
  wsThen fun cs =>
    if ("on ".data).isPrefixOf cs then
      let d1 := (cs.drop 3).takeWhile Char.isDigit
      if d1.length = 1 ∨ d1.length = 2 then
        match cs.drop (3 + d1.length) with
        | '/' :: rest =>
          let d2 := rest.takeWhile Char.isDigit
          if (d2.length = 1 ∨ d2.length = 2) ∧ boundaryAfter (rest.drop d2.length) = true then
            some (3 + d1.length + 1 + d2.length)
          else none
        | _ => none
      else none
    else none

/-- Worker for `subAll`, structurally recursive on a fuel argument.  All
matchers used here consume at least one character when they succeed, so the
scanned list shrinks at least as fast as the fuel; `subAll` passes the list's
length as fuel, which therefore never runs out. -/
def subAllGo (m : List Char → Option Nat) : Nat → List Char → List Char
  | _, [] => []
  | 0, l => l
  | fuel + 1, c :: cs =>
    match m (c :: cs) with
    | some n => subAllGo m fuel (cs.drop (n - 1))
    | none => c :: subAllGo m fuel cs

/-- `re.sub(pat, '', s)`: delete every leftmost non-overlapping match. -/
def subAll (m : List Char → Option Nat) (cs : List Char) : List Char :=
  subAllGo m cs.length cs

/-- The command prefixes stripped from the start of an "add" input, in source
order; each stands for the regex `^LIT\s+`. -/
def commandPats : List String :=
  ["remind me to", "add task", "add", "create task", "i need to",
   "i have to", "i should", "don\x27t forget to", "remember to"]

/-- `re.sub('^LIT\s+', '', s)`: strip LIT plus following whitespace at the
start (at most one occurrence, since the pattern is anchored). -/
def stripLeadingCmd (lit : List Char) (cs : List Char) : List Char :=
  if lit.isPrefixOf cs then
    match cs.drop lit.length with
    | [] => cs
    | c :: rest =>
      if c.isWhitespace then (c :: rest).dropWhile Char.isWhitespace else cs
  else cs

/-- The trailing/embedded date phrases removed from an "add" input, in source
order. -/
def date_references : List (List Char → Option Nat) :=
  [ patOnWeekday,
    patLitB "tomorrow".data,
    patLitB "today".data,
    patLitWord "next ".data,
    patLitWord "this ".data,
    patLitB "by end of week".data,
    patLitB "end of week".data,
    patLitB "by end of month".data,
    patLitB "end of month".data,
    patInDays,
    patOnSlashDate ]

/-- `extract_task_content` from `assistant.py`. -/
def extract_task_content (text : String) : String :=
  let cleaned := trimL (lowerL text.data)
  let cleaned := commandPats.foldl (fun acc p => stripLeadingCmd p.data acc) cleaned
  let cleaned := date_references.foldl (fun acc m => subAll m acc) cleaned
  (capitalizeL (trimL cleaned)).asString

/-- `parse_date_from_text` from `assistant.py`.  `today` is `datetime.now()`;
`dp` is the external `dateparser.parse` call (a total function into `Option`,
so a failed parse is `none`, never an exception).  Due dates are modeled as
calendar dates; the Python code renders them with `strftime("%Y-%m-%d")`,
which is injective on dates, so nothing is lost. -/
def parse_date_from_text (today : PyDate) (dp : String → Option PyDate)
    (text : String) : Option PyDate :=
  if pyIn "end of week" (pyLower text) then
    let w := pyWeekday today
    let du0 := (6 - w) % 7
    let du := if du0 = 0 then 7 else du0
    some (pyAddDays today du)
  else if pyIn "end of month" (pyLower text) then
    if today.month = 12 then some { today with day := 31 }
    else some (prevDay ⟨today.year, today.month + 1, 1⟩)
  else dp text

/-- The last calendar day of `d`'s month (the spec's notion used to judge the
"end of month" rule). -/
def lastDayOfMonth (d : PyDate) : PyDate :=
  ⟨d.year, d.month, daysInMonth d.year d.month⟩

/-! ### The task store and the resolver -/

inductive Status
  | pending
  | done
deriving DecidableEq, Repr

structure Task where
  id : Nat
  user_id : Nat
  content : String
  status : Status
  due_date : Option PyDate
  created_at : Nat
deriving DecidableEq, Repr

abbrev Store := List Task

/-- AUTOINCREMENT primary key: one more than the largest id ever used. -/
def newId (db : Store) : Nat := db.foldl (fun a t => max a t.id) 0 + 1

/-- CURRENT_TIMESTAMP, modeled as a strictly increasing counter. -/
def newCreatedAt (db : Store) : Nat := db.foldl (fun a t => max a t.created_at) 0 + 1

structure AssistantResponse where
  message : String
  tasks : Option (List Task)
  action : String
deriving DecidableEq, Repr

def listKeywords : List String :=
  ["show", "list", "what\x27s", "what do i have", "my tasks", "view"]

def doneKeywords : List String := ["done", "finished", "complete", "completed"]

def deleteKeywords : List String := ["delete", "remove", "cancel"]

inductive Intent
  | list
  | complete
  | delete
  | add
deriving DecidableEq, Repr

/-- The ordered keyword dispatch at the top of `process_natural_language`. -/
def classifyIntent (text_lower : String) : Intent :=
  if listKeywords.any (fun w => pyIn w text_lower) then .list
  else if doneKeywords.any (fun w => pyIn w text_lower) then .complete
  else if deleteKeywords.any (fun w => pyIn w text_lower) then .delete
  else .add

/-- Lexicographic order on calendar dates (equals the order of their ISO
`YYYY-MM-DD` renderings used by the SQL ORDER BY). -/
def pyDateLe (a b : PyDate) : Bool :=
  decide (a.year < b.year) ||
    (decide (a.year = b.year) &&
      (decide (a.month < b.month) ||
        (decide (a.month = b.month) && decide (a.day ≤ b.day))))

/-- `ORDER BY due_date, created_at` with SQLite's NULLs-first collration. -/
def dueThenCreatedLe (a b : Task) : Bool :=
  match a.due_date, b.due_date with
  | none, none => decide (a.created_at ≤ b.created_at)
  | none, some _ => true
  | some _, none => false
  | some x, some y =>
    if x = y then decide (a.created_at ≤ b.created_at) else pyDateLe x y

def createdLe (a b : Task) : Bool := decide (a.created_at ≤ b.created_at)

def createdGe (a b : Task) : Bool := decide (b.created_at ≤ a.created_at)

def insertSorted (le : Task → Task → Bool) (a : Task) : List Task → List Task
  | [] => [a]
  | b :: l => if le a b then a :: b :: l else b :: insertSorted le a l

/-- A stable sort modeling the SQL ORDER BY clauses. -/
def sortTasks (le : Task → Task → Bool) (l : List Task) : List Task :=
  l.foldr (insertSorted le) []

def weekdayNames : List String :=
  ["Monday", "Tuesday", "Wednesday", "Thursday", "Friday", "Saturday", "Sunday"]

def monthNames : List String :=
  ["January", "February", "March", "April", "May", "June", "July", "August",
   "September", "October", "November", "December"]

def pad2 (n : Nat) : String := if n < 10 then "0" ++ toString n else toString n

/-- Python `strftime("%A, %B %d")`. -/
def friendlyDate (d : PyDate) : String :=
  weekdayNames.getD (pyWeekday d) "" ++ ", " ++
    monthNames.getD (d.month - 1) "" ++ " " ++ pad2 d.day

/-- The fuzzy matcher of the complete/delete branches: some word of the task's
(lower-cased) content, longer than 3 characters, occurs in the input text. -/
def taskMatches (text_lower : String) (t : Task) : Bool :=
  (pySplitWords (pyLower t.content)).any fun w =>
    decide (3 < w.length) && pyIn w text_lower

def markDone (t : Task) : Task := { t with status := Status.done }

/-- `text.lower().strip()` as computed at the top of the resolver. -/
def normText (text : String) : String := pyStrip (pyLower text)

/-- `process_natural_language` from `assistant.py`.  The SQLite table is the
`db` list (persisted order = insertion order); the function returns the HTTP
response together with the table state after the call's commits. -/
def process_natural_language (today : PyDate) (dp : String → Option PyDate)
    (text : String) (user_id : Nat) (db : Store) : AssistantResponse × Store :=
  let text_lower := normText text
  match classifyIntent text_lower with
  | Intent.list =>
    let tasks :=
      if pyIn "today" text_lower then
        sortTasks createdLe (db.filter fun t =>
          decide (t.user_id = user_id) && decide (t.due_date = some today) &&
            decide (t.status = Status.pending))
      else if pyIn "done" text_lower || pyIn "completed" text_lower then
        sortTasks createdGe (db.filter fun t =>
          decide (t.user_id = user_id) && decide (t.status = Status.done))
      else
        sortTasks dueThenCreatedLe (db.filter fun t =>
          decide (t.user_id = user_id) && decide (t.status = Status.pending))
    if tasks = [] then
      ({ message := "You have no pending tasks. Nice work!",
         tasks := some [], action := "list" }, db)
    else
      ({ message := "Here are your tasks (" ++ toString tasks.length ++ " total):",
         tasks := some tasks, action := "list" }, db)
  | Intent.complete =>
    let pending := db.filter fun t =>
      decide (t.user_id = user_id) && decide (t.status = Status.pending)
    match pending.find? (taskMatches text_lower) with
    | some m =>
      ({ message := "Great job! Marked \x27" ++ m.content ++ "\x27 as done!",
         tasks := none, action := "complete" },
       db.map fun t => if t.id = m.id ∧ t.user_id = user_id then markDone t else t)
    | none =>
      ({ message := "I couldn\x27t find that task. Here are your pending tasks:",
         tasks := some pending, action := "list" }, db)
  | Intent.delete =>
    let pending := db.filter fun t =>
      decide (t.user_id = user_id) && decide (t.status = Status.pending)
    match pending.find? (taskMatches text_lower) with
    | some m =>
      ({ message := "Deleted task: \x27" ++ m.content ++ "\x27",
         tasks := none, action := "delete" },
       db.filter fun t => !(decide (t.id = m.id) && decide (t.user_id = user_id)))
    | none =>
      ({ message := "I couldn\x27t find that task to delete. Here are your tasks:",
         tasks := some pending, action := "list" }, db)
  | Intent.add =>
    let task_content := extract_task_content text
    let due_date := parse_date_from_text today dp text
    if task_content = "" ∨ task_content.length < 2 then
      ({ message := "I didn\x27t quite catch that. Try something like \x27Remind me to call mom tomorrow\x27",
         tasks := none, action := "error" }, db)
    else
      let msg :=
        match due_date with
        | some d => "Got it! Added: \x27" ++ task_content ++ "\x27 due " ++ friendlyDate d
        | none => "Got it! Added: \x27" ++ task_content ++ "\x27 (no due date)"
      ({ message := msg, tasks := none, action := "add" },
       db ++ [⟨newId db, user_id, task_content, Status.pending, due_date, newCreatedAt db⟩])

/-- Modelled from the spec: the external `dateparser` library (not part of this
repository), "a general natural-language date parser configured to prefer
future dates relative to the current instant"; per the spec's round-trip
scenario, input mentioning "tomorrow" parses to the day after the current
date, and unparseable text yields no date. -/
def dateparser_spec (today : PyDate) (text : String) : Option PyDate :=
  if pyIn "tomorrow" (pyLower text) then some (pyAddDays today 1) else none

/-! ### Session tokens and logout -/

structure TokenRec where
  user_id : Nat
  token : String
  expires : Nat
deriving DecidableEq, Repr

structure TokenPayload where
  user_id : Nat
  username : String
  expires : Nat
deriving DecidableEq, Repr

/-- The persistent server state relevant to sessions. -/
structure ServerState where
  tasks : Store
  tokens : List TokenRec
deriving DecidableEq, Repr

/-- `verify_token` from `assistant.py`.  `decodeSig` stands for the
split/signature-check/base64/json steps (standard-library primitives): it
yields the payload exactly when the token's signature verifies and the payload
decodes.  Times are instants on a discrete clock. -/
def verify_token (decodeSig : String → Option TokenPayload) (now : Nat)
    (tokens : List TokenRec) (tok : String) : Option TokenPayload :=
  match decodeSig tok with
  | none => none
  | some p =>
    if p.expires < now then none
    else if tokens.any (fun r => decide (r.token = tok)) then some p
    else none

/-- The `/logout` handler: it only returns a message and performs no database
operation (the source comments that deleting the token is left unimplemented). -/
def logout (st : ServerState) : String × ServerState :=
  ("Logged out successfully", st)

/-! ### Calendar lemmas -/

theorem daysInMonth_pos (y m : Nat) : 1 ≤ daysInMonth y m := by
  unfold daysInMonth
  split
  · split <;> omega
  · split <;> omega

theorem daysInMonth_twelve (y : Nat) : daysInMonth y 12 = 31 := rfl

theorem monthDaysBefore_succ (y m : Nat) (hm : 1 ≤ m) :
    monthDaysBefore y (m + 1) = monthDaysBefore y m + daysInMonth y m := by
  obtain ⟨n, rfl⟩ : ∃ n, m = n + 1 := ⟨m - 1, by omega⟩
  unfold monthDaysBefore
  simp [List.range_succ]

theorem monthDaysBefore_one (y : Nat) : monthDaysBefore y 1 = 0 := rfl

theorem monthDaysBefore_twelve (y : Nat) :
    monthDaysBefore y 12 = 334 + (if isLeap y then 1 else 0) := by
  have hr : List.range 11 = [0, 1, 2, 3, 4, 5, 6, 7, 8, 9, 10] := rfl
  unfold monthDaysBefore
  rw [show (12 - 1) = 11 from rfl, hr]
  cases h : isLeap y <;> simp [daysInMonth, h]

theorem daysBeforeYear_succ (y : Nat) (hy : 1 ≤ y) :
    daysBeforeYear (y + 1) = daysBeforeYear y + 365 + (if isLeap y then 1 else 0) := by
  obtain ⟨n, rfl⟩ : ∃ n, y = n + 1 := ⟨y - 1, by omega⟩
  unfold daysBeforeYear leapsBefore isLeap
  simp only [Nat.add_sub_cancel, Bool.or_eq_true, Bool.and_eq_true, beq_iff_eq,
    bne_iff_ne, ne_eq, decide_eq_true_eq]
  split <;> omega

theorem nextDay_within (d : PyDate) (hlt : d.day < daysInMonth d.year d.month) :
    nextDay d = ⟨d.year, d.month, d.day + 1⟩ := by
  unfold nextDay
  rw [if_pos hlt]

theorem nextDay_newMonth (d : PyDate) (hge : ¬d.day < daysInMonth d.year d.month)
    (hm : d.month < 12) : nextDay d = ⟨d.year, d.month + 1, 1⟩ := by
  unfold nextDay
  rw [if_neg hge, if_pos hm]

theorem nextDay_newYear (d : PyDate) (hge : ¬d.day < daysInMonth d.year d.month)
    (hm : ¬d.month < 12) : nextDay d = ⟨d.year + 1, 1, 1⟩ := by
  unfold nextDay
  rw [if_neg hge, if_neg hm]

theorem daysSinceEpoch_nextDay (d : PyDate) (h : ValidDate d) :
    daysSinceEpoch (nextDay d) = daysSinceEpoch d + 1 := by
  obtain ⟨hy, hm1, hm2, hd1, hd2⟩ := h
  by_cases hlt : d.day < daysInMonth d.year d.month
  · rw [nextDay_within d hlt]
    unfold daysSinceEpoch
    dsimp only
    omega
  · have hday : d.day = daysInMonth d.year d.month := by omega
    have hpos := daysInMonth_pos d.year d.month
    by_cases hm : d.month < 12
    · rw [nextDay_newMonth d hlt hm]
      unfold daysSinceEpoch
      dsimp only
      rw [monthDaysBefore_succ d.year d.month hm1]
      omega
    · rw [nextDay_newYear d hlt hm]
      have hm12 : d.month = 12 := by omega
      unfold daysSinceEpoch
      dsimp only
      rw [daysBeforeYear_succ d.year hy, monthDaysBefore_one, hm12,
        monthDaysBefore_twelve]
      have : d.day = 31 := by rw [hday, hm12, daysInMonth_twelve]
      omega

theorem validDate_nextDay (d : PyDate) (h : ValidDate d) : ValidDate (nextDay d) := by
  obtain ⟨hy, hm1, hm2, hd1, hd2⟩ := h
  by_cases hlt : d.day < daysInMonth d.year d.month
  · rw [nextDay_within d hlt]
    exact ⟨hy, hm1, hm2, by dsimp only; omega, by dsimp only; omega⟩
  · by_cases hm : d.month < 12
    · rw [nextDay_newMonth d hlt hm]
      exact ⟨hy, by dsimp only; omega, by dsimp only; omega, le_refl 1,
        daysInMonth_pos _ _⟩
    · rw [nextDay_newYear d hlt hm]
      exact ⟨by dsimp only; omega, by dsimp only; omega, by dsimp only; omega,
        le_refl 1, daysInMonth_pos _ _⟩

theorem validDate_pyAddDays (d : PyDate) (h : ValidDate d) (k : Nat) :
    ValidDate (pyAddDays d k) := by
  induction k with
  | zero => exact h
  | succ n ih => exact validDate_nextDay _ ih

theorem daysSinceEpoch_pyAddDays (d : PyDate) (h : ValidDate d) (k : Nat) :
    daysSinceEpoch (pyAddDays d k) = daysSinceEpoch d + k := by
  induction k with
  | zero => rfl
  | succ n ih =>
    show daysSinceEpoch (nextDay (pyAddDays d n)) = _
    rw [daysSinceEpoch_nextDay _ (validDate_pyAddDays d h n), ih]
    omega

theorem pyWeekday_pyAddDays (d : PyDate) (h : ValidDate d) (k : Nat) :
    pyWeekday (pyAddDays d k) = (pyWeekday d + k) % 7 := by
  unfold pyWeekday
  rw [daysSinceEpoch_pyAddDays d h k]
  omega

/-! ### List lemmas for the frame and isolation arguments -/

theorem mem_insertSorted (le : Task → Task → Bool) (a x : Task) (l : List Task) :
    x ∈ insertSorted le a l ↔ x = a ∨ x ∈ l := by
  induction l with
  | nil => simp [insertSorted]
  | cons b l ih =>
    unfold insertSorted
    split
    · simp
    · simp [ih]
      tauto

theorem mem_sortTasks (le : Task → Task → Bool) (x : Task) (l : List Task) :
    x ∈ sortTasks le l ↔ x ∈ l := by
  induction l with
  | nil => simp [sortTasks]
  | cons a l ih =>
    show x ∈ insertSorted le a (sortTasks le l) ↔ _
    rw [mem_insertSorted]
    simp [ih]

theorem filter_map_eq_of_fix {α : Type} (f : α → α) (p : α → Bool)
    (h1 : ∀ t, p t = true → f t = t) (h2 : ∀ t, p (f t) = p t) (l : List α) :
    (l.map f).filter p = l.filter p := by
  induction l with
  | nil => rfl
  | cons a l ih =>
    simp only [List.map_cons, List.filter_cons, h2 a]
    cases hp : p a
    · simpa [hp] using ih
    · simp only [hp, if_true, cond_true]
      rw [h1 a hp, ih]

theorem filter_filter_of_imp {α : Type} (p q : α → Bool)
    (h : ∀ t, p t = true → q t = true) (l : List α) :
    (l.filter q).filter p = l.filter p := by
  rw [List.filter_filter]
  apply List.filter_congr
  intro x _
  cases hp : p x
  · simp [hp]
  · simp [hp, h x hp]

theorem map_eq_self_of {α : Type} (f : α → α) (l : List α)
    (h : ∀ t ∈ l, f t = t) : l.map f = l := by
  induction l with
  | nil => rfl
  | cons a l ih =>
    simp only [List.map_cons, h a (List.mem_cons_self a l)]
    rw [ih fun t ht => h t (List.mem_cons_of_mem a ht)]

/-- In a table whose ids are unique, the complete-branch UPDATE changes
exactly the matched row: it equals a single `List.set`. -/
theorem map_update_eq_set (db : Store) (m : Task) (uid : Nat)
    (hm : m ∈ db) (hu : m.user_id = uid) (hnd : (db.map Task.id).Nodup) :
    ∃ i, ∃ hi : i < db.length, db.get ⟨i, hi⟩ = m ∧
      (db.map fun t => if t.id = m.id ∧ t.user_id = uid then markDone t else t)
        = db.set i (markDone m) := by
  induction db with
  | nil => cases hm
  | cons a l ih =>
    rw [List.map_cons, List.nodup_cons] at hnd
    rcases List.mem_cons.mp hm with rfl | hml
    · refine ⟨0, by simp, rfl, ?_⟩
      simp only [List.map_cons, List.set_cons_zero]
      rw [if_pos (⟨trivial, hu⟩ : True ∧ m.user_id = uid)]
      congr 1
      apply map_eq_self_of
      intro t htl
      rw [if_neg]
      rintro ⟨hid, -⟩
      exact hnd.1 (hid ▸ List.mem_map_of_mem Task.id htl)
    · have hid : a.id ≠ m.id := by
        intro heq
        exact hnd.1 (heq ▸ List.mem_map_of_mem Task.id hml)
      obtain ⟨i, hi, hget, hmap⟩ := ih hml hnd.2
      refine ⟨i + 1, by simp only [List.length_cons]; omega, hget, ?_⟩
      simp only [List.map_cons, List.set_cons_succ, hmap]
      rw [if_neg fun hc => hid hc.1]

/-- In a table whose ids are unique, the delete-branch DELETE removes exactly
the matched row: it equals a single `List.eraseIdx`. -/
theorem filter_remove_eq_eraseIdx (db : Store) (m : Task) (uid : Nat)
    (hm : m ∈ db) (hu : m.user_id = uid) (hnd : (db.map Task.id).Nodup) :
    ∃ i, ∃ hi : i < db.length, db.get ⟨i, hi⟩ = m ∧
      (db.filter fun t => !(decide (t.id = m.id) && decide (t.user_id = uid)))
        = db.eraseIdx i := by
  induction db with
  | nil => cases hm
  | cons a l ih =>
    rw [List.map_cons, List.nodup_cons] at hnd
    rcases List.mem_cons.mp hm with rfl | hml
    · refine ⟨0, by simp, rfl, ?_⟩
      rw [List.filter_cons, if_neg (by simp [hu])]
      show l.filter _ = l
      apply List.filter_eq_self.mpr
      intro t htl
      have hid : t.id ≠ m.id := by
        intro heq
        exact hnd.1 (heq ▸ List.mem_map_of_mem Task.id htl)
      simp [hid]
    · have hid : a.id ≠ m.id := by
        intro heq
        exact hnd.1 (heq ▸ List.mem_map_of_mem Task.id hml)
      obtain ⟨i, hi, hget, hfil⟩ := ih hml hnd.2
      refine ⟨i + 1, by simp only [List.length_cons]; omega, hget, ?_⟩
      rw [List.filter_cons, if_pos (by simp [hid]), hfil]
      rfl

/-! ### The claims -/

/-- Claim C2: intent classification is first-match-wins over the ordered
checks list → complete → delete, with add as the fallback; for every
lower-cased trimmed input exactly one intent is chosen, and a text containing
both a list keyword and a done keyword resolves to list. -/
theorem C2_intent_first_match_wins (t : String) :
    (classifyIntent t = Intent.list ↔ ∃ w ∈ listKeywords, pyIn w t = true) ∧
    (classifyIntent t = Intent.complete ↔
      (¬∃ w ∈ listKeywords, pyIn w t = true) ∧ ∃ w ∈ doneKeywords, pyIn w t = true) ∧
    (classifyIntent t = Intent.delete ↔
      (¬∃ w ∈ listKeywords, pyIn w t = true) ∧ (¬∃ w ∈ doneKeywords, pyIn w t = true) ∧
        ∃ w ∈ deleteKeywords, pyIn w t = true) ∧
    (classifyIntent t = Intent.add ↔
      (¬∃ w ∈ listKeywords, pyIn w t = true) ∧ (¬∃ w ∈ doneKeywords, pyIn w t = true) ∧
        ¬∃ w ∈ deleteKeywords, pyIn w t = true) ∧
    ((∃ w ∈ listKeywords, pyIn w t = true) → (∃ w ∈ doneKeywords, pyIn w t = true) →
      classifyIntent t = Intent.list) := by
  cases h1 : (listKeywords.any fun w => pyIn w t) <;>
    cases h2 : (doneKeywords.any fun w => pyIn w t) <;>
      cases h3 : (deleteKeywords.any fun w => pyIn w t) <;>
        simp [classifyIntent, h1, h2, h3, ← List.any_eq_true]

theorem C2_intent_first_match_wins_witness :
    classifyIntent "show me what is done" = Intent.list :=
  (C2_intent_first_match_wins "show me what is done").2.2.2.2
    ⟨"show", by decide, by decide⟩ ⟨"done", by decide, by decide⟩

/-- Claim C6 counterexample: on input "xyz" the resolver does not return
action "error" and does not leave the store unchanged: "xyz" has length 3, so
it passes the length-2 validation and is added as a task "Xyz". -/
theorem C6_counterexample :
    (process_natural_language ⟨2026, 10, 12⟩ (fun _ => none) "xyz" 1 []).1.action = "add" ∧
    (process_natural_language ⟨2026, 10, 12⟩ (fun _ => none) "xyz" 1 []).1.action ≠ "error" ∧
    (process_natural_language ⟨2026, 10, 12⟩ (fun _ => none) "xyz" 1 []).2
      = [⟨1, 1, "Xyz", Status.pending, none, 1⟩] := by
  refine ⟨by decide, by decide, by decide⟩

/-- Claim C6 (amended): for the input text "xyz" the resolver returns action
tag "add" and persists exactly one new pending task with content "Xyz" (the
validation only rejects extracted content shorter than 2 characters, and
"xyz" has 3). -/
theorem C6_add_xyz (today : PyDate) (dp : String → Option PyDate) (uid : Nat) (db : Store) :
    (process_natural_language today dp "xyz" uid db).1.action = "add" ∧
    (process_natural_language today dp "xyz" uid db).2
      = db ++ [⟨newId db, uid, "Xyz", Status.pending, dp "xyz", newCreatedAt db⟩] :=
  ⟨rfl, rfl⟩

/-- Claim C8: on any input containing "end of week" the date extractor
returns the next Sunday — a date with weekday Sunday, strictly after the
current date and at most seven days out; when today is itself a Sunday the
result is the Sunday seven days later; the result is never the current
date. -/
theorem C8_end_of_week (today : PyDate) (dp : String → Option PyDate) (text : String)
    (hv : ValidDate today) (hw : pyIn "end of week" (pyLower text) = true) :
    ∃ d, parse_date_from_text today dp text = some d ∧
      pyWeekday d = 6 ∧
      daysSinceEpoch today < daysSinceEpoch d ∧
      daysSinceEpoch d ≤ daysSinceEpoch today + 7 ∧
      (pyWeekday today = 6 → d = pyAddDays today 7) ∧
      d ≠ today := by
  have hwd7 : pyWeekday today < 7 := Nat.mod_lt _ (by omega)
  have hres : parse_date_from_text today dp text
      = some (pyAddDays today
          (if (6 - pyWeekday today) % 7 = 0 then 7 else (6 - pyWeekday today) % 7)) := by
    unfold parse_date_from_text
    rw [if_pos hw]
  set k := if (6 - pyWeekday today) % 7 = 0 then 7 else (6 - pyWeekday today) % 7 with hkdef
  have hk1 : 1 ≤ k := by
    rw [hkdef]; split <;> omega
  have hk7 : k ≤ 7 := by
    rw [hkdef]; split <;> omega
  have hkSunday : (pyWeekday today + k) % 7 = 6 := by
    rw [hkdef]; split <;> omega
  have hepoch := daysSinceEpoch_pyAddDays today hv k
  have hweek := pyWeekday_pyAddDays today hv k
  refine ⟨pyAddDays today k, hres, ?_, by omega, by omega, ?_, ?_⟩
  · rw [hweek, hkSunday]
  · intro h6
    have h0 : (6 - pyWeekday today) % 7 = 0 := by omega
    rw [hkdef, if_pos h0]
  · intro heq
    have : daysSinceEpoch today = daysSinceEpoch (pyAddDays today k) := by rw [heq]
    omega

theorem C8_end_of_week_witness :
    ∃ d, parse_date_from_text ⟨2026, 10, 12⟩ (fun _ => none) "finish it by end of week"
        = some d ∧
      pyWeekday d = 6 ∧
      daysSinceEpoch ⟨2026, 10, 12⟩ < daysSinceEpoch d ∧
      daysSinceEpoch d ≤ daysSinceEpoch ⟨2026, 10, 12⟩ + 7 ∧
      (pyWeekday ⟨2026, 10, 12⟩ = 6 → d = pyAddDays ⟨2026, 10, 12⟩ 7) ∧
      d ≠ ⟨2026, 10, 12⟩ :=
  C8_end_of_week ⟨2026, 10, 12⟩ (fun _ => none) "finish it by end of week"
    (by decide) (by decide)

/-- Claim C9 counterexample: an input containing "end of month" does not
always yield the last day of the current month — the "end of week" check runs
first, so "end of week end of month" yields the next Sunday (2026-10-18 on
2026-10-12), not 2026-10-31. -/
theorem C9_counterexample :
    pyIn "end of month" (pyLower "end of week end of month") = true ∧
    parse_date_from_text ⟨2026, 10, 12⟩ (fun _ => none) "end of week end of month"
      = some ⟨2026, 10, 18⟩ ∧
    parse_date_from_text ⟨2026, 10, 12⟩ (fun _ => none) "end of week end of month"
      ≠ some (lastDayOfMonth ⟨2026, 10, 12⟩) := by
  refine ⟨by decide, by decide, by decide⟩

/-- Claim C9 (amended): for every input containing "end of month" but not
"end of week" (the latter is checked first) and every valid current date, the
date extractor returns the last calendar day of the current month; on the
last day of a month it returns that same day, and in December it returns
December 31 of the current year. -/
theorem C9_end_of_month (today : PyDate) (dp : String → Option PyDate) (text : String)
    (hv : ValidDate today)
    (hm : pyIn "end of month" (pyLower text) = true)
    (hw : pyIn "end of week" (pyLower text) = false) :
    parse_date_from_text today dp text = some (lastDayOfMonth today) ∧
    (today.day = daysInMonth today.year today.month →
      parse_date_from_text today dp text = some today) ∧
    (today.month = 12 →
      parse_date_from_text today dp text = some ⟨today.year, 12, 31⟩) := by
  obtain ⟨hy, hm1, hm2, hd1, hd2⟩ := hv
  have hmain : parse_date_from_text today dp text = some (lastDayOfMonth today) := by
    unfold parse_date_from_text
    rw [if_neg (by simp [hw]), if_pos hm]
    by_cases h12 : today.month = 12
    · rw [if_pos h12]
      simp [lastDayOfMonth, h12, daysInMonth_twelve]
    · rw [if_neg h12]
      unfold prevDay
      rw [if_neg (by dsimp only; omega), if_pos (by dsimp only; omega)]
      simp [lastDayOfMonth]
  refine ⟨hmain, ?_, ?_⟩
  · intro hlast
    rw [hmain]
    cases today
    simp_all [lastDayOfMonth]
  · intro h12
    rw [hmain]
    simp [lastDayOfMonth, h12, daysInMonth_twelve]

theorem C9_end_of_month_witness :
    parse_date_from_text ⟨2024, 2, 29⟩ (fun _ => none) "pay rent by end of month"
      = some ⟨2024, 2, 29⟩ :=
  (C9_end_of_month ⟨2024, 2, 29⟩ (fun _ => none) "pay rent by end of month"
    (by decide) (by decide) (by decide)).2.1 (by decide)

/-- Claim C5: for input routed to the add intent, extracted content that is
empty or shorter than 2 characters yields action "error" and the store is
unchanged; otherwise exactly one new pending task is inserted, carrying the
extracted content and the parsed due date; and a failing date parse never
fails the call — with no special phrase present it only yields an absent due
date (the dateparser delegate is total into Option). -/
theorem C5_add_validation (today : PyDate) (dp : String → Option PyDate) (text : String)
    (uid : Nat) (db : Store)
    (hadd : classifyIntent (normText text) = Intent.add) :
    ((extract_task_content text = "" ∨ (extract_task_content text).length < 2) →
      (process_natural_language today dp text uid db).1.action = "error" ∧
      (process_natural_language today dp text uid db).2 = db) ∧
    (¬(extract_task_content text = "" ∨ (extract_task_content text).length < 2) →
      (process_natural_language today dp text uid db).1.action = "add" ∧
      (process_natural_language today dp text uid db).2
        = db ++ [⟨newId db, uid, extract_task_content text, Status.pending,
            parse_date_from_text today dp text, newCreatedAt db⟩]) ∧
    (dp text = none → pyIn "end of week" (pyLower text) = false →
      pyIn "end of month" (pyLower text) = false →
      parse_date_from_text today dp text = none) := by
  refine ⟨?_, ?_, ?_⟩
  · intro hshort
    simp only [process_natural_language, hadd]
    rw [if_pos hshort]
    exact ⟨rfl, rfl⟩
  · intro hlong
    simp only [process_natural_language, hadd]
    rw [if_neg hlong]
    exact ⟨rfl, rfl⟩
  · intro hdp hw hm
    unfold parse_date_from_text
    rw [if_neg (by simp [hw]), if_neg (by simp [hm])]
    exact hdp

theorem C5_add_validation_witness :
    (process_natural_language ⟨2026, 10, 12⟩ (fun _ => none) "buy milk" 1 []).1.action
      = "add" :=
  ((C5_add_validation ⟨2026, 10, 12⟩ (fun _ => none) "buy milk" 1 []
    (by decide)).2.1 (by decide)).1

/-- Claim C3: for input classified complete (resp. delete), the resolver
scans the owner's pending tasks in persisted order; the match is the first
task having some content word longer than 3 characters contained in the
input; on a match, complete marks exactly that task done (delete removes it)
and returns a confirmation naming the task with action tag "complete" (resp.
"delete"); with no match nothing is mutated and the full pending list is
returned with an apology and action tag "list". -/
theorem C3_complete_delete_matching (today : PyDate) (dp : String → Option PyDate)
    (text : String) (uid : Nat) (db : Store) :
    (∀ x, taskMatches (normText text) x = true ↔
      ∃ w ∈ pySplitWords (pyLower x.content), 3 < w.length ∧ pyIn w (normText text) = true) ∧
    (classifyIntent (normText text) = Intent.complete →
      (∀ m,
        (db.filter fun t => decide (t.user_id = uid) && decide (t.status = Status.pending)).find?
            (taskMatches (normText text)) = some m →
        (taskMatches (normText text) m = true ∧
          ∃ l1 l2,
            (db.filter fun t => decide (t.user_id = uid) && decide (t.status = Status.pending))
              = l1 ++ m :: l2 ∧ ∀ x ∈ l1, taskMatches (normText text) x = false) ∧
        (process_natural_language today dp text uid db).1
          = ⟨"Great job! Marked \x27" ++ m.content ++ "\x27 as done!", none, "complete"⟩ ∧
        (process_natural_language today dp text uid db).2
          = db.map fun t => if t.id = m.id ∧ t.user_id = uid then markDone t else t) ∧
      ((db.filter fun t => decide (t.user_id = uid) && decide (t.status = Status.pending)).find?
          (taskMatches (normText text)) = none →
        (process_natural_language today dp text uid db).1
          = ⟨"I couldn\x27t find that task. Here are your pending tasks:",
              some (db.filter fun t =>
                decide (t.user_id = uid) && decide (t.status = Status.pending)),
              "list"⟩ ∧
        (process_natural_language today dp text uid db).2 = db)) ∧
    (classifyIntent (normText text) = Intent.delete →
      (∀ m,
        (db.filter fun t => decide (t.user_id = uid) && decide (t.status = Status.pending)).find?
            (taskMatches (normText text)) = some m →
        (taskMatches (normText text) m = true ∧
          ∃ l1 l2,
            (db.filter fun t => decide (t.user_id = uid) && decide (t.status = Status.pending))
              = l1 ++ m :: l2 ∧ ∀ x ∈ l1, taskMatches (normText text) x = false) ∧
        (process_natural_language today dp text uid db).1
          = ⟨"Deleted task: \x27" ++ m.content ++ "\x27", none, "delete"⟩ ∧
        (process_natural_language today dp text uid db).2
          = db.filter fun t => !(decide (t.id = m.id) && decide (t.user_id = uid))) ∧
      ((db.filter fun t => decide (t.user_id = uid) && decide (t.status = Status.pending)).find?
          (taskMatches (normText text)) = none →
        (process_natural_language today dp text uid db).1
          = ⟨"I couldn\x27t find that task to delete. Here are your tasks:",
              some (db.filter fun t =>
                decide (t.user_id = uid) && decide (t.status = Status.pending)),
              "list"⟩ ∧
        (process_natural_language today dp text uid db).2 = db)) := by
  refine ⟨?_, ?_, ?_⟩
  · intro x
    unfold taskMatches
    rw [List.any_eq_true]
    constructor
    · rintro ⟨w, hw, hcond⟩
      rw [Bool.and_eq_true, decide_eq_true_eq] at hcond
      exact ⟨w, hw, hcond.1, hcond.2⟩
    · rintro ⟨w, hw, h3, hin⟩
      refine ⟨w, hw, ?_⟩
      rw [Bool.and_eq_true, decide_eq_true_eq]
      exact ⟨h3, hin⟩
  · intro hc
    constructor
    · intro m hm
      refine ⟨⟨List.find?_some hm, ?_⟩, ?_, ?_⟩
      · obtain ⟨-, l1, l2, hsplit, hprev⟩ := List.find?_eq_some.mp hm
        refine ⟨l1, l2, hsplit, fun x hx => ?_⟩
        have := hprev x hx
        simpa using this
      · simp only [process_natural_language, hc, hm]
      · simp only [process_natural_language, hc, hm]
    · intro hnone
      constructor
      · simp only [process_natural_language, hc, hnone]
      · simp only [process_natural_language, hc, hnone]
  · intro hc
    constructor
    · intro m hm
      refine ⟨⟨List.find?_some hm, ?_⟩, ?_, ?_⟩
      · obtain ⟨-, l1, l2, hsplit, hprev⟩ := List.find?_eq_some.mp hm
        refine ⟨l1, l2, hsplit, fun x hx => ?_⟩
        have := hprev x hx
        simpa using this
      · simp only [process_natural_language, hc, hm]
      · simp only [process_natural_language, hc, hm]
    · intro hnone
      constructor
      · simp only [process_natural_language, hc, hnone]
      · simp only [process_natural_language, hc, hnone]

theorem C3_complete_delete_matching_witness :
    (process_natural_language ⟨2026, 10, 12⟩ (fun _ => none) "i finished the report" 5
        [⟨1, 5, "Write report", Status.pending, none, 1⟩]).2
      = [⟨1, 5, "Write report", Status.done, none, 1⟩] := by
  have h := ((C3_complete_delete_matching ⟨2026, 10, 12⟩ (fun _ => none)
      "i finished the report" 5 [⟨1, 5, "Write report", Status.pending, none, 1⟩]).2.1
      (by decide)).1 ⟨1, 5, "Write report", Status.pending, none, 1⟩ (by decide)
  rw [h.2.2]
  decide

/-- Claim C4: frame condition of complete/delete — over a store with unique
ids, a successful match commits exactly one status change (a single List.set)
or exactly one deletion (a single List.eraseIdx) at the matched row, leaving
every other task of every owner unchanged, and a no-match outcome changes no
task at all. -/
theorem C4_frame (today : PyDate) (dp : String → Option PyDate) (text : String)
    (uid : Nat) (db : Store) (hnd : (db.map Task.id).Nodup)
    (hcd : classifyIntent (normText text) = Intent.complete ∨
      classifyIntent (normText text) = Intent.delete) :
    ((db.filter fun t => decide (t.user_id = uid) && decide (t.status = Status.pending)).find?
        (taskMatches (normText text)) = none →
      (process_natural_language today dp text uid db).2 = db) ∧
    (∀ m,
      (db.filter fun t => decide (t.user_id = uid) && decide (t.status = Status.pending)).find?
          (taskMatches (normText text)) = some m →
      ∃ i, ∃ hi : i < db.length,
        db.get ⟨i, hi⟩ = m ∧
        (process_natural_language today dp text uid db).2
          = if classifyIntent (normText text) = Intent.complete
            then db.set i (markDone m) else db.eraseIdx i) := by
  have hpend : ∀ m,
      (db.filter fun t => decide (t.user_id = uid) && decide (t.status = Status.pending)).find?
          (taskMatches (normText text)) = some m → m ∈ db ∧ m.user_id = uid := by
    intro m hm
    have hmem := List.mem_of_find?_eq_some hm
    rw [List.mem_filter] at hmem
    obtain ⟨hdb, hcond⟩ := hmem
    rw [Bool.and_eq_true, decide_eq_true_eq, decide_eq_true_eq] at hcond
    exact ⟨hdb, hcond.1⟩
  rcases hcd with hc | hc
  · constructor
    · intro hnone
      simp only [process_natural_language, hc, hnone]
    · intro m hm
      obtain ⟨hdb, hu⟩ := hpend m hm
      obtain ⟨i, hi, hget, heq⟩ := map_update_eq_set db m uid hdb hu hnd
      refine ⟨i, hi, hget, ?_⟩
      rw [if_pos hc]
      simp only [process_natural_language, hc, hm]
      exact heq
  · constructor
    · intro hnone
      simp only [process_natural_language, hc, hnone]
    · intro m hm
      obtain ⟨hdb, hu⟩ := hpend m hm
      obtain ⟨i, hi, hget, heq⟩ := filter_remove_eq_eraseIdx db m uid hdb hu hnd
      refine ⟨i, hi, hget, ?_⟩
      rw [if_neg (by simp [hc])]
      simp only [process_natural_language, hc, hm]
      exact heq

theorem C4_frame_witness :
    (process_natural_language ⟨2026, 10, 12⟩ (fun _ => none) "remove the milk task" 9
        [⟨1, 9, "Buy milk", Status.pending, none, 1⟩]).2 = [] := by
  obtain ⟨i, hi, hget, heq⟩ :=
    (C4_frame ⟨2026, 10, 12⟩ (fun _ => none) "remove the milk task" 9
        [⟨1, 9, "Buy milk", Status.pending, none, 1⟩] (by decide)
        (Or.inr (by decide))).2
      ⟨1, 9, "Buy milk", Status.pending, none, 1⟩ (by decide)
  rw [heq]
  have h0 : i = 0 := by
    simp only [List.length_singleton] at hi
    omega
  subst h0
  rw [if_neg (by decide)]
  rfl

/-- Claim C1: owner isolation — for distinct owners A and B, a call scoped to
A leaves B's rows exactly as they were (no mutation, no deletion, no
insertion among them), and every task list the response carries contains only
tasks owned by A. -/
theorem C1_owner_isolation (today : PyDate) (dp : String → Option PyDate) (text : String)
    (A B : Nat) (db : Store) (hAB : A ≠ B) :
    ((process_natural_language today dp text A db).2.filter fun t => decide (t.user_id = B))
      = (db.filter fun t => decide (t.user_id = B)) ∧
    (∀ ts, (process_natural_language today dp text A db).1.tasks = some ts →
      ∀ t ∈ ts, t.user_id = A) := by
  cases hint : classifyIntent (normText text) with
  | list =>
    by_cases ht1 : pyIn "today" (normText text) = true
    · constructor
      · simp only [process_natural_language, hint, apply_ite Prod.snd, ite_self]
      · simp only [process_natural_language, hint]
        intro ts hts
        rw [if_pos ht1] at hts
        split at hts
        · injection hts with h
          subst h
          intro t ht
          exact absurd ht (List.not_mem_nil t)
        · injection hts with h
          subst h
          intro t ht
          rw [mem_sortTasks, List.mem_filter, Bool.and_eq_true, Bool.and_eq_true,
            decide_eq_true_eq] at ht
          exact ht.2.1.1
    · by_cases ht2 : (pyIn "done" (normText text) || pyIn "completed" (normText text)) = true
      · constructor
        · simp only [process_natural_language, hint, apply_ite Prod.snd, ite_self]
        · simp only [process_natural_language, hint]
          intro ts hts
          rw [if_neg ht1, if_pos ht2] at hts
          split at hts
          · injection hts with h
            subst h
            intro t ht
            exact absurd ht (List.not_mem_nil t)
          · injection hts with h
            subst h
            intro t ht
            rw [mem_sortTasks, List.mem_filter, Bool.and_eq_true,
              decide_eq_true_eq] at ht
            exact ht.2.1
      · constructor
        · simp only [process_natural_language, hint, apply_ite Prod.snd, ite_self]
        · simp only [process_natural_language, hint]
          intro ts hts
          rw [if_neg ht1, if_neg ht2] at hts
          split at hts
          · injection hts with h
            subst h
            intro t ht
            exact absurd ht (List.not_mem_nil t)
          · injection hts with h
            subst h
            intro t ht
            rw [mem_sortTasks, List.mem_filter, Bool.and_eq_true,
              decide_eq_true_eq] at ht
            exact ht.2.1
  | complete =>
    cases hfind : (db.filter fun t =>
        decide (t.user_id = A) && decide (t.status = Status.pending)).find?
          (taskMatches (normText text)) with
    | some m =>
      constructor
      · simp only [process_natural_language, hint, hfind]
        apply filter_map_eq_of_fix
        · intro t hpt
          rw [decide_eq_true_eq] at hpt
          rw [if_neg]
          rintro ⟨-, hua⟩
          exact hAB (hua.symm.trans hpt)
        · intro t
          split <;> rfl
      · simp only [process_natural_language, hint, hfind]
        intro ts hts
        exact Option.noConfusion hts
    | none =>
      constructor
      · simp only [process_natural_language, hint, hfind]
      · simp only [process_natural_language, hint, hfind]
        intro ts hts t ht
        injection hts with h
        subst h
        rw [List.mem_filter, Bool.and_eq_true, decide_eq_true_eq] at ht
        exact ht.2.1
  | delete =>
    cases hfind : (db.filter fun t =>
        decide (t.user_id = A) && decide (t.status = Status.pending)).find?
          (taskMatches (normText text)) with
    | some m =>
      constructor
      · simp only [process_natural_language, hint, hfind]
        apply filter_filter_of_imp
        intro t hpt
        rw [decide_eq_true_eq] at hpt
        have hna : t.user_id ≠ A := fun h => hAB (h.symm.trans hpt)
        simp [hna]
      · simp only [process_natural_language, hint, hfind]
        intro ts hts
        exact Option.noConfusion hts
    | none =>
      constructor
      · simp only [process_natural_language, hint, hfind]
      · simp only [process_natural_language, hint, hfind]
        intro ts hts t ht
        injection hts with h
        subst h
        rw [List.mem_filter, Bool.and_eq_true, decide_eq_true_eq] at ht
        exact ht.2.1
  | add =>
    constructor
    · simp only [process_natural_language, hint]
      split
      · rfl
      · rw [List.filter_append]
        have : decide ((A : Nat) = B) = false := by simp [hAB]
        simp [this]
    · simp only [process_natural_language, hint]
      split <;> exact fun ts hts => Option.noConfusion hts

theorem C1_owner_isolation_witness :
    ((process_natural_language ⟨2026, 10, 12⟩ (fun _ => none) "show my tasks" 1
        [⟨1, 2, "Other owners task", Status.pending, none, 1⟩]).2.filter
          fun t => decide (t.user_id = 2))
      = ([⟨1, 2, "Other owners task", Status.pending, none, 1⟩].filter
          fun t => decide (t.user_id = 2)) :=
  (C1_owner_isolation ⟨2026, 10, 12⟩ (fun _ => none) "show my tasks" 1 2
    [⟨1, 2, "Other owners task", Status.pending, none, 1⟩] (by decide)).1

/-- Claim C7: round-trip — starting from an empty store, resolving
"remind me to buy milk tomorrow" and then a list request returns exactly one
task, whose content is "Buy milk" and whose due date is tomorrow's calendar
date (the dateparser delegate is the spec-modelled one). -/
theorem C7_roundtrip (today : PyDate) (uid : Nat) :
    ∃ tk : Task,
      (process_natural_language today (dateparser_spec today) "list" uid
          (process_natural_language today (dateparser_spec today)
            "remind me to buy milk tomorrow" uid []).2).1.tasks
        = some [tk] ∧
      tk.content = "Buy milk" ∧
      tk.due_date = some (pyAddDays today 1) ∧
      (process_natural_language today (dateparser_spec today)
          "remind me to buy milk tomorrow" uid []).2.length = 1 := by
  have h1 : (process_natural_language today (dateparser_spec today)
      "remind me to buy milk tomorrow" uid []).2
      = [⟨1, uid, "Buy milk", Status.pending, some (pyAddDays today 1), 1⟩] := rfl
  refine ⟨⟨1, uid, "Buy milk", Status.pending, some (pyAddDays today 1), 1⟩, ?_, rfl, rfl,
    by simp [h1]⟩
  rw [h1]
  have hcl : classifyIntent (normText "list") = Intent.list := rfl
  have hc1 : ¬(pyIn "today" (normText "list") = true) := by decide
  have hc2 : ¬((pyIn "done" (normText "list") || pyIn "completed" (normText "list")) = true) := by
    decide
  have hfil : (([⟨1, uid, "Buy milk", Status.pending, some (pyAddDays today 1), 1⟩] : Store).filter
      fun t => decide (t.user_id = uid) && decide (t.status = Status.pending))
      = [⟨1, uid, "Buy milk", Status.pending, some (pyAddDays today 1), 1⟩] := by
    simp
  have hsort : sortTasks dueThenCreatedLe
      ([⟨1, uid, "Buy milk", Status.pending, some (pyAddDays today 1), 1⟩] : Store)
      = [⟨1, uid, "Buy milk", Status.pending, some (pyAddDays today 1), 1⟩] := rfl
  simp only [process_natural_language, hcl]
  rw [if_neg hc1, if_neg hc2, hfil, hsort, if_neg (List.cons_ne_nil _ _)]

/-- Claim C10 (implicit): logout leaves the token store unchanged — it
deletes nothing — so a token valid before logout is still accepted by
verify_token afterwards, and verify_token accepts a token only while its
expiration instant has not passed. -/
theorem C10_logout_keeps_tokens (st : ServerState) :
    (logout st).2 = st ∧
    ∀ (decodeSig : String → Option TokenPayload) (now : Nat) (tok : String),
      verify_token decodeSig now (logout st).2.tokens tok
          = verify_token decodeSig now st.tokens tok ∧
      ∀ p, verify_token decodeSig now st.tokens tok = some p → now ≤ p.expires := by
  refine ⟨rfl, fun decodeSig now tok => ⟨rfl, fun p hp => ?_⟩⟩
  unfold verify_token at hp
  cases hds : decodeSig tok with
  | none => rw [hds] at hp; cases hp
  | some q =>
    rw [hds] at hp
    dsimp only at hp
    by_cases hexp : q.expires < now
    · rw [if_pos hexp] at hp; cases hp
    · by_cases hmem : (st.tokens.any fun r => decide (r.token = tok)) = true
      · rw [if_neg hexp, if_pos hmem] at hp
        have := Option.some.inj hp
        subst this
        omega
      · rw [if_neg hexp, if_neg hmem] at hp; cases hp

theorem C10_logout_keeps_tokens_witness :
    verify_token (fun s => if s = "tok" then some ⟨1, "alice", 100⟩ else none) 50
        ((logout ⟨[], [⟨1, "tok", 100⟩]⟩).2).tokens "tok"
      = verify_token (fun s => if s = "tok" then some ⟨1, "alice", 100⟩ else none) 50
        (ServerState.mk [] [⟨1, "tok", 100⟩]).tokens "tok" ∧
    (50 : Nat) ≤ 100 := by
  constructor
  · exact ((C10_logout_keeps_tokens ⟨[], [⟨1, "tok", 100⟩]⟩).2
      (fun s => if s = "tok" then some ⟨1, "alice", 100⟩ else none) 50 "tok").1
  · exact ((C10_logout_keeps_tokens ⟨[], [⟨1, "tok", 100⟩]⟩).2
      (fun s => if s = "tok" then some ⟨1, "alice", 100⟩ else none) 50 "tok").2
      ⟨1, "alice", 100⟩ (by decide)

end Clear
